import Mathlib

/-!
Shallow embedding of the computational core of `src/dashboard.py`:
the indicator engine (SMA via `rolling(w).mean()`, RSI via
`diff` / `where` / `rolling(14).mean()`), the day-change and
period-performance calculators, and the watchlist / performance
aggregation loops.  Prices are modelled as exact rationals; the
pandas/NumPy behaviour of division by zero (±inf / NaN, no exception)
is modelled by the `PyVal` type, and missing values (NaN cells of a
series) by `Option`.
-/

/-- Embedding of a pandas series aligned with the input: position `i`
holds `none` where the pandas value is NaN. -/
abbrev Series := List (Option ℚ)

/-- The `w`-long slice of `xs` ending at index `i`
(meaningful when `w ≤ i + 1 ≤ xs.length`). -/
def windowSlice (w : ℕ) (xs : List ℚ) (i : ℕ) : List ℚ :=
  (xs.take (i + 1)).drop (i + 1 - w)

/-- Embedding of `Series.rolling(window=w).mean()` on a series with no
NaN entries: the value at `i` is the mean of the `w`-long slice ending
at `i`, and is NaN (`none`) while the window is not fully populated. -/
def rollingMean (w : ℕ) (xs : List ℚ) : Series :=
  (List.range xs.length).map (fun i =>
    if i + 1 < w then none else some ((windowSlice w xs i).sum / w))

/-- Number of non-NaN entries of a derived series. -/
def definedCount (s : Series) : ℕ :=
  s.countP (fun o => o.isSome)

/-- Helper for `diff`: differences of successive elements, carrying the
previous element. -/
def diffAux (prev : ℚ) : List ℚ → Series
  | [] => []
  | x :: xs => some (x - prev) :: diffAux x xs

/-- Embedding of `Series.diff()`: position 0 is NaN, position `i ≥ 1`
holds `xs[i] - xs[i-1]`. -/
def diff : List ℚ → Series
  | [] => []
  | x :: xs => none :: diffAux x xs

/-- Embedding of `delta.where(delta > 0, 0)`: where the condition is
false — including where `delta` is NaN, since `NaN > 0` is false —
the value is replaced by 0, so the result is total. -/
def gainSeries (closes : List ℚ) : List ℚ :=
  (diff closes).map (fun o => match o with | some d => max d 0 | none => 0)

/-- Embedding of `-delta.where(delta < 0, 0)`: total for the same
reason as `gainSeries`. -/
def lossSeries (closes : List ℚ) : List ℚ :=
  (diff closes).map (fun o => match o with | some d => max (-d) 0 | none => 0)

/-- Pointwise form of `gainSeries`: the gain attributed to index `j`. -/
def gainAt (closes : List ℚ) (j : ℕ) : ℚ :=
  if j = 0 then 0 else max (closes.getD j 0 - closes.getD (j - 1) 0) 0

/-- Pointwise form of `lossSeries`: the loss attributed to index `j`. -/
def lossAt (closes : List ℚ) (j : ℕ) : ℚ :=
  if j = 0 then 0 else max (closes.getD (j - 1) 0 - closes.getD j 0) 0

/-- The 14-bar average gain ending at index `i` (meaningful for
`13 ≤ i < closes.length`). -/
def avgGainAt (closes : List ℚ) (i : ℕ) : ℚ :=
  ((List.range' (i + 1 - 14) 14).map (gainAt closes)).sum / 14

/-- The 14-bar average loss ending at index `i`. -/
def avgLossAt (closes : List ℚ) (i : ℕ) : ℚ :=
  ((List.range' (i + 1 - 14) 14).map (lossAt closes)).sum / 14

/-- Embedding of `100 - (100 / (1 + gain/loss))` under float division:
`g/0` is `+inf` for `g > 0` (so the expression collapses to 100) and
`0/0` is NaN (propagated, so the result is NaN). -/
def rsiAt (g l : ℚ) : Option ℚ :=
  if l = 0 then (if g = 0 then none else some 100)
  else some (100 - 100 / (1 + g / l))

/-- Embedding of the RSI block of `dashboard.py` (lines 75–79). -/
def RSI (closes : List ℚ) : Series :=
  List.zipWith (fun og ol => og.bind fun g => ol.bind fun l => rsiAt g l)
    (rollingMean 14 (gainSeries closes)) (rollingMean 14 (lossSeries closes))

/-- The three derived series computed for the price chart
(lines 71–79): SMA-20, SMA-50 and RSI-14. -/
def indicatorEngine (closes : List ℚ) : Series × Series × Series :=
  (rollingMean 20 closes, rollingMean 50 closes, RSI closes)

/-- A NumPy float64 scalar as stored in a snapshot row: either a finite
value (modelled exactly) or one of the non-finite results of a division
by zero. -/
inductive PyVal where
  | num (q : ℚ)
  | inf
  | neginf
  | nan
deriving DecidableEq

/-- Float64 division: by a nonzero divisor it is exact; by zero it
yields NaN (for 0/0) or a signed infinity, raising no exception. -/
def pyDiv (a b : ℚ) : PyVal :=
  if b = 0 then (if a = 0 then PyVal.nan else if 0 < a then PyVal.inf else PyVal.neginf)
  else PyVal.num (a / b)

/-- Multiplication of a division result by the positive constant 100. -/
def pyMul100 : PyVal → PyVal
  | PyVal.num q => PyVal.num (q * 100)
  | PyVal.inf => PyVal.inf
  | PyVal.neginf => PyVal.neginf
  | PyVal.nan => PyVal.nan

/-- Whether a stored scalar is finite. -/
def PyVal.isFinite : PyVal → Bool
  | PyVal.num _ => true
  | _ => false

/-- Embedding of `data.iloc[-1]` on a nonempty series. -/
def lastD (l : List ℚ) : ℚ := l.getD (l.length - 1) 0

/-- Embedding of `data.iloc[-2] if len(data) > 1 else current_price`
(line 196): the prior close, falling back to the latest close. -/
def prevCloseOf (closes : List ℚ) : ℚ :=
  if 1 < closes.length then closes.getD (closes.length - 2) 0 else lastD closes

/-- Embedding of line 197:
`((current_price - prev_close) / prev_close) * 100`. -/
def dayChangeVal (closes : List ℚ) : PyVal :=
  pyMul100 (pyDiv (lastD closes - prevCloseOf closes) (prevCloseOf closes))

/-- Embedding of line 249:
`((data.iloc[-1] - data.iloc[0]) / data.iloc[0]) * 100`. -/
def perfValue (closes : List ℚ) : PyVal :=
  pyMul100 (pyDiv (lastD closes - closes.getD 0 0) (closes.getD 0 0))

/-- Embedding of lines 248–253: a performance value is produced only
when the series is nonempty with more than one point; otherwise nothing
is appended. -/
def perfEntry (closes : List ℚ) : Option PyVal :=
  if 2 ≤ closes.length then some (perfValue closes) else none

/-- A cell of a snapshot row: a value, or the `N/A` sentinel. -/
inductive Cell (α : Type) where
  | val (a : α)
  | na
deriving DecidableEq

/-- One row of the portfolio table (lines 199–221). -/
structure Snapshot where
  name : String
  ticker : String
  price : Cell ℚ
  change : Cell PyVal
  lastUpdated : Cell String
deriving DecidableEq

/-- The row emitted on fetch failure or empty data (lines 206–221). -/
def naSnapshot (n t : String) : Snapshot :=
  { name := n, ticker := t, price := Cell.na, change := Cell.na, lastUpdated := Cell.na }

/-- Outcome of `get_stock_data(ticker, period)['Close']`: an exception,
or a (possibly empty) list of (date, close) bars. -/
abbrev FetchOutcome := Except Unit (List (String × ℚ))

/-- Embedding of `data.index[-1]` on a nonempty list of dates. -/
def lastStr (l : List String) : String := l.getD (l.length - 1) ""

/-- Embedding of one iteration of the portfolio loop (lines 192–221)
for a single (name, ticker) pair given its fetch outcome. -/
def snapshotFor (n t : String) : FetchOutcome → Snapshot
  | Except.error _ => naSnapshot n t
  | Except.ok [] => naSnapshot n t
  | Except.ok (b :: bs) =>
    { name := n, ticker := t,
      price := Cell.val (lastD ((b :: bs).map Prod.snd)),
      change := Cell.val (dayChangeVal ((b :: bs).map Prod.snd)),
      lastUpdated := Cell.val (lastStr ((b :: bs).map Prod.fst)) }

/-- Embedding of the whole portfolio loop (lines 190–221): one snapshot
per watchlist pair, in watchlist order. -/
def portfolioData (wl : List (String × String)) (fetch : String → FetchOutcome) :
    List Snapshot :=
  wl.map (fun p => snapshotFor p.1 p.2 (fetch p.2))

/-- Whether the performance loop (lines 246–255) keeps a ticker:
its fetch succeeded with more than one close. -/
def qualifies (fetch : String → FetchOutcome) (t : String) : Bool :=
  match fetch t with
  | Except.ok bars => decide (2 ≤ bars.length)
  | Except.error _ => false

/-- Embedding of one iteration of the performance loop (lines 246–255)
for a single pair: an exception or an undersized series appends
nothing. -/
def perfRow (fetch : String → FetchOutcome) (p : String × String) :
    Option (String × PyVal) :=
  match fetch p.2 with
  | Except.error _ => none
  | Except.ok bars => (perfEntry (bars.map Prod.snd)).map (fun v => (p.2, v))

/-- Embedding of the performance loop (lines 244–255): failed or
undersized tickers are skipped, nothing is appended for them. -/
def perfData (wl : List (String × String)) (fetch : String → FetchOutcome) :
    List (String × PyVal) :=
  wl.filterMap (perfRow fetch)

/-- One difference over possibly-NaN operands: NaN unless both the
previous and the current value are present. -/
def diffStep (prev x : Option ℚ) : Option ℚ :=
  match prev, x with
  | some a, some b => some (b - a)
  | _, _ => none

/-- Helper for `diffN`: successive differences over a series that may
contain NaN entries; a difference touching a NaN is NaN. -/
def diffNAux (prev : Option ℚ) : Series → Series
  | [] => []
  | x :: xs => diffStep prev x :: diffNAux x xs

/-- Embedding of `Series.diff()` on a series that may contain NaN. -/
def diffN : Series → Series
  | [] => []
  | x :: xs => none :: diffNAux x xs

/-- Embedding of `rolling(window=w).mean()` on a series that may
contain NaN: with the default `min_periods`, a window containing any
NaN (or not yet fully populated) yields NaN. -/
def rollingMeanN (w : ℕ) (xs : Series) : Series :=
  (List.range xs.length).map (fun i =>
    if i + 1 < w then none
    else if ((xs.take (i + 1)).drop (i + 1 - w)).all Option.isSome then
      some ((((xs.take (i + 1)).drop (i + 1 - w)).filterMap id).sum / w)
    else none)

/-- Gains of a possibly-NaN close series: the `where` clause replaces
every NaN difference by 0, so the result is total. -/
def gainSeriesN (xs : Series) : List ℚ :=
  (diffN xs).map (fun o => match o with | some d => max d 0 | none => 0)

/-- Losses of a possibly-NaN close series. -/
def lossSeriesN (xs : Series) : List ℚ :=
  (diffN xs).map (fun o => match o with | some d => max (-d) 0 | none => 0)

/-- The RSI block applied to a possibly-NaN close series. -/
def rsiN (xs : Series) : Series :=
  List.zipWith (fun og ol => og.bind fun g => ol.bind fun l => rsiAt g l)
    (rollingMean 14 (gainSeriesN xs)) (rollingMean 14 (lossSeriesN xs))

/-- The two branches of the caller (lines 69 and 129–130): render the
chart, or skip it and surface the no-data notice. -/
inductive RenderBranch where
  | chart
  | noData
deriving DecidableEq

/-- Embedding of `if not hist_data.empty: ... else: st.warning(...)`
(line 69): the notice branch is taken exactly when the frame is empty. -/
def renderDecision (close : Series) : RenderBranch :=
  if close.isEmpty then RenderBranch.noData else RenderBranch.chart

theorem mapEraseIdx {α β : Type} (f : α → β) :
    ∀ (l : List α) (j : ℕ), List.map f (l.eraseIdx j) = (List.map f l).eraseIdx j
  | [], _ => by simp
  | _ :: _, 0 => by simp [List.eraseIdx]
  | a :: l, j + 1 => by
    simp only [List.eraseIdx, List.map_cons]
    rw [mapEraseIdx f l j]

theorem countP_range_ge (k : ℕ) : ∀ L : ℕ,
    (List.range L).countP (fun i => decide (k ≤ i)) = L - k := by
  intro L
  induction L with
  | zero => simp
  | succ n ih =>
    rw [List.range_succ, List.countP_append, ih]
    by_cases h : k ≤ n
    · simp only [List.countP_cons, List.countP_nil]
      rw [if_pos (by simpa using h)]
      omega
    · simp only [List.countP_cons, List.countP_nil]
      rw [if_neg (by simpa using h)]
      omega

theorem rollingMean_length (w : ℕ) (xs : List ℚ) :
    (rollingMean w xs).length = xs.length := by
  simp [rollingMean]

theorem rollingMean_getElem (w : ℕ) (xs : List ℚ) (i : ℕ) (h : i < xs.length) :
    (rollingMean w xs)[i]? =
      some (if i + 1 < w then none else some ((windowSlice w xs i).sum / w)) := by
  unfold rollingMean
  rw [List.getElem?_map, List.getElem?_range h]
  rfl

theorem windowSlice_length (w : ℕ) (xs : List ℚ) (i : ℕ)
    (hw : w ≤ i + 1) (hi : i < xs.length) :
    (windowSlice w xs i).length = w := by
  simp only [windowSlice, List.length_drop, List.length_take]
  omega

theorem windowSlice_map_range (f : ℕ → ℚ) (L w i : ℕ)
    (hw : w ≤ i + 1) (hi : i < L) :
    windowSlice w ((List.range L).map f) i = (List.range' (i + 1 - w) w).map f := by
  apply List.ext_getElem?
  intro j
  simp only [windowSlice, List.getElem?_drop, List.getElem?_take]
  by_cases hj : j < w
  · rw [if_pos (by omega), List.getElem?_map, List.getElem?_range (by omega),
      List.getElem?_map, List.getElem?_range' _ _ hj]
    simp only [Option.map_some']
    congr 2
    omega
  · rw [if_neg (by omega)]
    rw [List.getElem?_eq_none (by rw [List.length_map, List.length_range']; omega)]

theorem diffAux_length (prev : ℚ) : ∀ xs : List ℚ, (diffAux prev xs).length = xs.length
  | [] => rfl
  | x :: xs => by simp [diffAux, diffAux_length x xs]

theorem diff_length : ∀ xs : List ℚ, (diff xs).length = xs.length
  | [] => rfl
  | x :: xs => by simp [diff, diffAux_length]

theorem diffAux_getElem : ∀ (xs : List ℚ) (prev : ℚ) (j : ℕ), j < xs.length →
    (diffAux prev xs)[j]? =
      some (some (xs.getD j 0 - (if j = 0 then prev else xs.getD (j - 1) 0)))
  | [], _, _, h => by simp at h
  | y :: ys, prev, 0, _ => by simp [diffAux]
  | y :: ys, prev, k + 1, h => by
    have hk : k < ys.length := by simpa using h
    simp only [diffAux, List.getElem?_cons_succ]
    rw [diffAux_getElem ys y k hk]
    congr 2
    rcases k with _ | k
    · simp
    · simp

theorem diff_getElem (xs : List ℚ) (i : ℕ) (h : i < xs.length) :
    (diff xs)[i]? =
      some (if i = 0 then none else some (xs.getD i 0 - xs.getD (i - 1) 0)) := by
  match xs, i with
  | x :: xs, 0 => simp [diff]
  | x :: xs, j + 1 =>
    have hj : j < xs.length := by simpa using h
    simp only [diff, List.getElem?_cons_succ]
    rw [diffAux_getElem xs x j hj]
    rcases j with _ | j
    · simp
    · simp

theorem gainSeries_length (closes : List ℚ) :
    (gainSeries closes).length = closes.length := by
  simp [gainSeries, diff_length]

theorem lossSeries_length (closes : List ℚ) :
    (lossSeries closes).length = closes.length := by
  simp [lossSeries, diff_length]

theorem gainSeries_getElem (closes : List ℚ) (i : ℕ) (h : i < closes.length) :
    (gainSeries closes)[i]? = some (gainAt closes i) := by
  unfold gainSeries
  rw [List.getElem?_map, diff_getElem closes i h]
  rcases Nat.eq_zero_or_pos i with h0 | h0
  · subst h0; simp [gainAt]
  · rw [if_neg (by omega)]
    simp only [Option.map_some']
    rw [gainAt, if_neg (by omega)]

theorem lossSeries_getElem (closes : List ℚ) (i : ℕ) (h : i < closes.length) :
    (lossSeries closes)[i]? = some (lossAt closes i) := by
  unfold lossSeries
  rw [List.getElem?_map, diff_getElem closes i h]
  rcases Nat.eq_zero_or_pos i with h0 | h0
  · subst h0; simp [lossAt]
  · rw [if_neg (by omega)]
    simp only [Option.map_some']
    rw [lossAt, if_neg (by omega)]
    rw [neg_sub]

theorem gainSeries_eq (closes : List ℚ) :
    gainSeries closes = (List.range closes.length).map (gainAt closes) := by
  apply List.ext_getElem?
  intro j
  by_cases hj : j < closes.length
  · rw [gainSeries_getElem closes j hj, List.getElem?_map, List.getElem?_range hj]
    rfl
  · rw [List.getElem?_eq_none (by rw [gainSeries_length]; omega),
      List.getElem?_eq_none (by rw [List.length_map, List.length_range]; omega)]

theorem lossSeries_eq (closes : List ℚ) :
    lossSeries closes = (List.range closes.length).map (lossAt closes) := by
  apply List.ext_getElem?
  intro j
  by_cases hj : j < closes.length
  · rw [lossSeries_getElem closes j hj, List.getElem?_map, List.getElem?_range hj]
    rfl
  · rw [List.getElem?_eq_none (by rw [lossSeries_length]; omega),
      List.getElem?_eq_none (by rw [List.length_map, List.length_range]; omega)]

theorem RSI_length (closes : List ℚ) : (RSI closes).length = closes.length := by
  simp [RSI, rollingMean_length, gainSeries_length, lossSeries_length]

theorem RSI_getElem (closes : List ℚ) (i : ℕ) (h : i < closes.length) :
    (RSI closes)[i]? =
      some (if i + 1 < 14 then none
        else rsiAt (avgGainAt closes i) (avgLossAt closes i)) := by
  unfold RSI
  rw [List.getElem?_zipWith,
    rollingMean_getElem 14 (gainSeries closes) i (by rw [gainSeries_length]; exact h),
    rollingMean_getElem 14 (lossSeries closes) i (by rw [lossSeries_length]; exact h)]
  by_cases h14 : i + 1 < 14
  · rw [if_pos h14, if_pos h14, if_pos h14]
    rfl
  · rw [if_neg h14, if_neg h14, if_neg h14]
    rw [gainSeries_eq, lossSeries_eq,
      windowSlice_map_range (gainAt closes) closes.length 14 i (by omega) h,
      windowSlice_map_range (lossAt closes) closes.length 14 i (by omega) h]
    rfl

theorem gainAt_nonneg (closes : List ℚ) (j : ℕ) : 0 ≤ gainAt closes j := by
  unfold gainAt
  split
  · exact le_refl 0
  · exact le_max_right _ _

theorem lossAt_nonneg (closes : List ℚ) (j : ℕ) : 0 ≤ lossAt closes j := by
  unfold lossAt
  split
  · exact le_refl 0
  · exact le_max_right _ _

theorem avgGainAt_nonneg (closes : List ℚ) (i : ℕ) : 0 ≤ avgGainAt closes i := by
  unfold avgGainAt
  apply div_nonneg _ (by norm_num)
  apply List.sum_nonneg
  intro x hx
  obtain ⟨j, _, rfl⟩ := List.mem_map.mp hx
  exact gainAt_nonneg closes j

theorem avgLossAt_nonneg (closes : List ℚ) (i : ℕ) : 0 ≤ avgLossAt closes i := by
  unfold avgLossAt
  apply div_nonneg _ (by norm_num)
  apply List.sum_nonneg
  intro x hx
  obtain ⟨j, _, rfl⟩ := List.mem_map.mp hx
  exact lossAt_nonneg closes j

theorem rsiAt_bounds (g l x : ℚ) (hg : 0 ≤ g) (hl : 0 ≤ l)
    (hx : rsiAt g l = some x) : 0 ≤ x ∧ x ≤ 100 := by
  unfold rsiAt at hx
  by_cases h0 : l = 0
  · rw [if_pos h0] at hx
    by_cases hg0 : g = 0
    · rw [if_pos hg0] at hx
      cases hx
    · rw [if_neg hg0] at hx
      have hx100 := Option.some.inj hx
      subst hx100
      norm_num
  · rw [if_neg h0] at hx
    have hxv := Option.some.inj hx
    subst hxv
    have hlpos : 0 < l := lt_of_le_of_ne hl (Ne.symm h0)
    have ht : 0 ≤ g / l := div_nonneg hg hl
    have h1 : (1 : ℚ) ≤ 1 + g / l := by linarith
    have hdle : 100 / (1 + g / l) ≤ 100 := div_le_self (by norm_num) h1
    have hdpos : 0 < 100 / (1 + g / l) := div_pos (by norm_num) (by linarith)
    constructor <;> linarith

/-- C1: for every close sequence of length L and window `w ≤ L` the SMA
series has exactly `L - w + 1` defined values; at each index
`i ≥ w - 1` the value is the arithmetic mean of the `w`-long slice of
closes ending at `i`; at each index `i < w - 1` it is absent; and for
`w > L` every value is absent. -/
theorem sma_defined_values (xs : List ℚ) (w : ℕ) (hw : 1 ≤ w) :
    (rollingMean w xs).length = xs.length ∧
    (w ≤ xs.length → definedCount (rollingMean w xs) = xs.length - w + 1) ∧
    (∀ i, i < xs.length → w ≤ i + 1 →
      (rollingMean w xs)[i]? = some (some ((windowSlice w xs i).sum / w)) ∧
      (windowSlice w xs i).length = w) ∧
    (∀ i, i < xs.length → i + 1 < w → (rollingMean w xs)[i]? = some none) ∧
    (xs.length < w → definedCount (rollingMean w xs) = 0) := by
  have key : definedCount (rollingMean w xs) = xs.length - (w - 1) := by
    unfold definedCount rollingMean
    rw [List.countP_map]
    have hfun : ((fun o : Option ℚ => o.isSome) ∘
        fun i => if i + 1 < w then none
          else some ((windowSlice w xs i).sum / w)) =
        (fun i => decide (w - 1 ≤ i)) := by
      funext i
      simp only [Function.comp]
      by_cases hi : i + 1 < w
      · rw [if_pos hi]
        simp only [Option.isSome_none]
        symm
        rw [decide_eq_false_iff_not]
        omega
      · rw [if_neg hi]
        simp only [Option.isSome_some]
        symm
        rw [decide_eq_true_eq]
        omega
    rw [hfun, countP_range_ge]
  refine ⟨rollingMean_length w xs, ?_, ?_, ?_, ?_⟩
  · intro hwL
    rw [key]
    omega
  · intro i hi hwi
    constructor
    · rw [rollingMean_getElem w xs i hi, if_neg (by omega)]
    · exact windowSlice_length w xs i hwi hi
  · intro i hi hiw
    rw [rollingMean_getElem w xs i hi, if_pos hiw]
  · intro hLw
    rw [key]
    omega

/-- C1 witness: the SMA with window 2 over four closes has three
defined values, and the value at index 1 is the mean of the slice
ending there. -/
theorem sma_defined_values_witness :
    definedCount (rollingMean 2 [1, 2, 3, 4]) = 3 ∧
    (rollingMean 2 [(1 : ℚ), 2, 3, 4])[1]? =
      some (some ((windowSlice 2 [1, 2, 3, 4] 1).sum / 2)) :=
  ⟨(sma_defined_values [1, 2, 3, 4] 2 (by norm_num)).2.1 (by norm_num),
   ((sma_defined_values [1, 2, 3, 4] 2 (by norm_num)).2.2.1 1 (by norm_num)
     (by norm_num)).1⟩

/-- C2 counterexample: on the 14-bar strictly increasing close series
the code's RSI is already defined at index 13 (with value 100), whereas
the claim asserts the first defined RSI value sits at index 14, i.e.
that index 13 is still undefined. -/
theorem rsi_first_defined_counterexample :
    (RSI [1, 2, 3, 4, 5, 6, 7, 8, 9, 10, 11, 12, 13, 14])[13]? =
      some (some 100) ∧
    (RSI [(1 : ℚ), 2, 3, 4, 5, 6, 7, 8, 9, 10, 11, 12, 13, 14])[13]? ≠
      some none := by
  have h13 : (13 : ℕ) < ([1, 2, 3, 4, 5, 6, 7, 8, 9, 10, 11, 12, 13, 14] :
      List ℚ).length := by decide
  have hval := RSI_getElem [1, 2, 3, 4, 5, 6, 7, 8, 9, 10, 11, 12, 13, 14] 13 h13
  rw [if_neg (by norm_num)] at hval
  have hg : avgGainAt [1, 2, 3, 4, 5, 6, 7, 8, 9, 10, 11, 12, 13, 14] 13 =
      13 / 14 := by
    norm_num [avgGainAt, List.range', gainAt, List.getD, max_def]
  have hl : avgLossAt [1, 2, 3, 4, 5, 6, 7, 8, 9, 10, 11, 12, 13, 14] 13 =
      0 := by
    norm_num [avgLossAt, List.range', lossAt, List.getD, max_def]
  rw [hg, hl] at hval
  rw [rsiAt, if_pos rfl, if_neg (by norm_num)] at hval
  exact ⟨hval, by rw [hval]; simp⟩

/-- C2 (amended): delta exists exactly at indices `1 ≤ i < L` with
value `close[i] - close[i-1]`; the `where` clause substitutes 0 where
delta is NaN, so gain and loss are total with `gain[i] = max(delta,0)`,
`loss[i] = max(-delta,0)` for `i ≥ 1` and `gain[0] = loss[0] = 0`;
avgGain/avgLoss are 14-window simple moving averages of these total
series, so the first (possibly) defined RSI value sits at index 13, its
window covering delta indices 1..13 plus the substituted 0 at index 0;
at every index `i ≥ 13` the RSI value is
`100 - 100/(1 + avgGain[i]/avgLoss[i])` (collapsing to 100 when
avgLoss is 0 and avgGain is positive, NaN when both are 0). -/
theorem rsi_pipeline_amended (closes : List ℚ) :
    (diff closes).length = closes.length ∧
    (∀ i, i < closes.length →
      (diff closes)[i]? =
        some (if i = 0 then none
          else some (closes.getD i 0 - closes.getD (i - 1) 0))) ∧
    (∀ i, i < closes.length →
      (gainSeries closes)[i]? = some (gainAt closes i) ∧
      (lossSeries closes)[i]? = some (lossAt closes i)) ∧
    (RSI closes).length = closes.length ∧
    (∀ i, i < closes.length →
      (RSI closes)[i]? =
        some (if i + 1 < 14 then none
          else rsiAt (avgGainAt closes i) (avgLossAt closes i))) ∧
    (∀ i x, (RSI closes)[i]? = some (some x) → 13 ≤ i) := by
  refine ⟨diff_length closes, diff_getElem closes,
    fun i hi => ⟨gainSeries_getElem closes i hi, lossSeries_getElem closes i hi⟩,
    RSI_length closes, RSI_getElem closes, ?_⟩
  intro i x hx
  by_cases hi : i < closes.length
  · rw [RSI_getElem closes i hi] at hx
    by_cases h14 : i + 1 < 14
    · rw [if_pos h14] at hx
      simp at hx
    · omega
  · rw [List.getElem?_eq_none (by rw [RSI_length]; omega)] at hx
    cases hx

/-- C2 witness: the amended pipeline theorem evaluated on a concrete
14-bar series at index 13. -/
theorem rsi_pipeline_witness :
    (RSI [1, 2, 3, 4, 5, 6, 7, 8, 9, 10, 11, 12, 13, 14])[13]? =
      some (if 13 + 1 < 14 then none
        else rsiAt (avgGainAt [1, 2, 3, 4, 5, 6, 7, 8, 9, 10, 11, 12, 13, 14] 13)
          (avgLossAt [1, 2, 3, 4, 5, 6, 7, 8, 9, 10, 11, 12, 13, 14] 13)) :=
  (rsi_pipeline_amended
    [1, 2, 3, 4, 5, 6, 7, 8, 9, 10, 11, 12, 13, 14]).2.2.2.2.1 13 (by decide)

/-- C3: every defined RSI value lies in [0, 100]; whenever the 14-bar
average loss is zero and the average gain is positive, RSI is exactly
100; and when average gain and average loss are both zero the RSI value
is undefined (NaN), with no special case applied. -/
theorem rsi_bounded (closes : List ℚ) :
    (∀ (i : ℕ) (x : ℚ), (RSI closes)[i]? = some (some x) → 0 ≤ x ∧ x ≤ 100) ∧
    (∀ i, 13 ≤ i → i < closes.length → avgLossAt closes i = 0 →
      0 < avgGainAt closes i → (RSI closes)[i]? = some (some 100)) ∧
    (∀ i, 13 ≤ i → i < closes.length → avgLossAt closes i = 0 →
      avgGainAt closes i = 0 → (RSI closes)[i]? = some none) := by
  refine ⟨?_, ?_, ?_⟩
  · intro i x hx
    by_cases hi : i < closes.length
    · rw [RSI_getElem closes i hi] at hx
      by_cases h14 : i + 1 < 14
      · rw [if_pos h14] at hx
        simp at hx
      · rw [if_neg h14] at hx
        exact rsiAt_bounds _ _ x (avgGainAt_nonneg closes i)
          (avgLossAt_nonneg closes i) (Option.some.inj hx)
    · rw [List.getElem?_eq_none (by rw [RSI_length]; omega)] at hx
      cases hx
  · intro i h13 hi hl hg
    rw [RSI_getElem closes i hi, if_neg (by omega), rsiAt, if_pos hl,
      if_neg hg.ne']
  · intro i h13 hi hl hg
    rw [RSI_getElem closes i hi, if_neg (by omega), rsiAt, if_pos hl,
      if_pos hg]

/-- C3 witness: on a strictly increasing 14-bar series the 14-bar
average loss is zero, the average gain is positive, and the theorem
yields RSI = 100 at index 13. -/
theorem rsi_bounded_witness :
    (RSI [2, 4, 6, 8, 10, 12, 14, 16, 18, 20, 22, 24, 26, 28])[13]? =
      some (some 100) :=
  (rsi_bounded [2, 4, 6, 8, 10, 12, 14, 16, 18, 20, 22, 24, 26, 28]).2.1 13
    (by norm_num) (by decide)
    (by norm_num [avgLossAt, List.range', lossAt, List.getD, max_def])
    (by norm_num [avgGainAt, List.range', gainAt, List.getD, max_def])

/-- C4 counterexample: on the one-point series [0] the code computes
(0 - 0) / 0 = 0/0, a NaN, so the day change is not the exact 0 the
claim asserts for every one-point series. -/
theorem day_change_counterexample :
    dayChangeVal [0] = PyVal.nan ∧ PyVal.nan ≠ PyVal.num 0 := by
  constructor
  · norm_num [dayChangeVal, lastD, prevCloseOf, pyDiv, pyMul100, List.getD]
  · simp

/-- C4 (amended): with at least two points and a nonzero previous
close, the day change is ((latest − previous)/previous)·100; with
exactly one point whose close is nonzero it is exactly 0 (a single
zero close instead makes the fallback compute 0/0, i.e. NaN); the
spec's concrete examples hold: [100, 110] ↦ +10, [100] ↦ 0,
[100, 90] ↦ −10. -/
theorem day_change_amended :
    (∀ closes : List ℚ, 2 ≤ closes.length → prevCloseOf closes ≠ 0 →
      dayChangeVal closes =
        PyVal.num ((lastD closes - prevCloseOf closes) / prevCloseOf closes * 100)) ∧
    (∀ c : ℚ, c ≠ 0 → dayChangeVal [c] = PyVal.num 0) ∧
    dayChangeVal [100, 110] = PyVal.num 10 ∧
    dayChangeVal [100] = PyVal.num 0 ∧
    dayChangeVal [100, 90] = PyVal.num (-10) := by
  refine ⟨?_, ?_, ?_, ?_, ?_⟩
  · intro closes h2 hp
    rw [dayChangeVal, pyDiv, if_neg hp, pyMul100]
  · intro c hc
    have h1 : lastD [c] = c := by simp [lastD]
    have h2 : prevCloseOf [c] = c := by simp [prevCloseOf, lastD]
    rw [dayChangeVal, h1, h2, sub_self, pyDiv, if_neg hc, zero_div,
      pyMul100, zero_mul]
  · norm_num [dayChangeVal, lastD, prevCloseOf, pyDiv, pyMul100, List.getD]
  · norm_num [dayChangeVal, lastD, prevCloseOf, pyDiv, pyMul100, List.getD]
  · norm_num [dayChangeVal, lastD, prevCloseOf, pyDiv, pyMul100, List.getD]

/-- C4 witness: the single-point fallback at the nonzero close 50. -/
theorem day_change_witness : dayChangeVal [50] = PyVal.num 0 :=
  day_change_amended.2.1 50 (by norm_num)

/-- C5: with at least two points (and a nonzero first close) the period
performance is ((last − first)/first)·100 — e.g. [50, 55, 60] ↦ +20 —
and with an empty or single-point series nothing is produced at all:
the per-ticker value is `none` and the aggregation appends no entry,
unlike the day-change single-point fallback. -/
theorem period_performance_spec :
    (∀ closes : List ℚ, 2 ≤ closes.length → closes.getD 0 0 ≠ 0 →
      perfEntry closes = some (PyVal.num
        ((lastD closes - closes.getD 0 0) / closes.getD 0 0 * 100))) ∧
    (∀ closes : List ℚ, closes.length ≤ 1 → perfEntry closes = none) ∧
    perfEntry [50, 55, 60] = some (PyVal.num 20) ∧
    perfEntry ([] : List ℚ) = none ∧
    perfEntry [50] = none ∧
    (∀ (n t : String) (fetch : String → FetchOutcome) (bars : List (String × ℚ)),
      fetch t = Except.ok bars → bars.length ≤ 1 →
        perfData [(n, t)] fetch = []) := by
  refine ⟨?_, ?_, ?_, ?_, ?_, ?_⟩
  · intro closes h2 h0
    rw [perfEntry, if_pos h2, perfValue, pyDiv, if_neg h0, pyMul100]
  · intro closes h1
    rw [perfEntry, if_neg (by omega)]
  · norm_num [perfEntry, perfValue, lastD, pyDiv, pyMul100, List.getD]
  · rfl
  · rw [perfEntry, if_neg (by norm_num)]
  · intro n t fetch bars hf hlen
    have hrow : perfRow fetch (n, t) = none := by
      rw [perfRow]
      simp only [hf]
      rw [perfEntry, List.length_map, if_neg (by omega)]
      rfl
    rw [perfData, List.filterMap_cons, hrow]
    rfl

/-- C5 witness: the concrete three-point series from the spec, and the
omission of a single-point ticker from the aggregate. -/
theorem period_performance_witness :
    perfEntry [50, 55, 60] = some (PyVal.num 20) ∧
    perfData [("Solo", "SOLO")]
      (fun _ => Except.ok [("2024-01-02", 50)]) = [] :=
  ⟨period_performance_spec.2.2.1,
   period_performance_spec.2.2.2.2.2 "Solo" "SOLO"
     (fun _ => Except.ok [("2024-01-02", 50)])
     [("2024-01-02", 50)] rfl (by norm_num)⟩

/-- C6: the aggregator yields exactly one snapshot per watchlist pair,
in the original order; a pair whose fetch fails or returns empty gets
the all-`N/A` snapshot; each snapshot depends only on its own pair's
fetch outcome (so another ticker's failure leaves it unchanged), and
removing any pair removes exactly its snapshot and no other. -/
theorem watchlist_aggregation (wl : List (String × String))
    (fetch : String → FetchOutcome) :
    (portfolioData wl fetch).length = wl.length ∧
    (∀ (i : ℕ) (p : String × String), wl[i]? = some p →
      (portfolioData wl fetch)[i]? = some (snapshotFor p.1 p.2 (fetch p.2))) ∧
    (∀ (i : ℕ) (p : String × String), wl[i]? = some p →
      (fetch p.2 = Except.error () ∨ fetch p.2 = Except.ok []) →
      (portfolioData wl fetch)[i]? = some (naSnapshot p.1 p.2)) ∧
    (∀ j, portfolioData (wl.eraseIdx j) fetch =
      (portfolioData wl fetch).eraseIdx j) ∧
    (∀ (fetch2 : String → FetchOutcome) (i : ℕ) (p : String × String),
      wl[i]? = some p →
      fetch p.2 = fetch2 p.2 →
      (portfolioData wl fetch)[i]? = (portfolioData wl fetch2)[i]?) := by
  refine ⟨by simp [portfolioData], ?_, ?_, ?_, ?_⟩
  · intro i p hp
    rw [portfolioData, List.getElem?_map, hp]
    rfl
  · intro i p hp hfail
    rw [portfolioData, List.getElem?_map, hp]
    simp only [Option.map_some']
    rcases hfail with h | h
    · rw [h]
      rfl
    · rw [h]
      rfl
  · intro j
    rw [portfolioData, portfolioData]
    exact mapEraseIdx _ wl j
  · intro fetch2 i p hp heq
    rw [portfolioData, portfolioData, List.getElem?_map, List.getElem?_map, hp]
    simp only [Option.map_some']
    rw [heq]

/-- C6 witness: three pairs with the second failing — three snapshots
in order, the second all-`N/A`. -/
theorem watchlist_aggregation_witness :
    (portfolioData [("A", "T1"), ("B", "T2"), ("C", "T3")]
      (fun t => if t = "T2" then Except.error ()
        else Except.ok [("2024-01-02", 10), ("2024-01-03", 11)])).length = 3 ∧
    (portfolioData [("A", "T1"), ("B", "T2"), ("C", "T3")]
      (fun t => if t = "T2" then Except.error ()
        else Except.ok [("2024-01-02", 10), ("2024-01-03", 11)]))[1]? =
      some (naSnapshot "B" "T2") :=
  ⟨(watchlist_aggregation [("A", "T1"), ("B", "T2"), ("C", "T3")]
      (fun t => if t = "T2" then Except.error ()
        else Except.ok [("2024-01-02", 10), ("2024-01-03", 11)])).1,
   (watchlist_aggregation [("A", "T1"), ("B", "T2"), ("C", "T3")]
      (fun t => if t = "T2" then Except.error ()
        else Except.ok [("2024-01-02", 10), ("2024-01-03", 11)])).2.2.1 1
      ("B", "T2") rfl (Or.inl (by norm_num))⟩

theorem diffNAux_all_none : ∀ (l : Series) (prev : Option ℚ),
    (∀ o ∈ l, o = none) → ∀ o ∈ diffNAux prev l, o = none
  | [], _, _ => by simp [diffNAux]
  | x :: l, prev, h => by
    have hx : x = none := h x (List.mem_cons_self x l)
    subst hx
    intro o ho
    rw [diffNAux] at ho
    rcases List.mem_cons.mp ho with h1 | h1
    · subst h1
      cases prev <;> rfl
    · exact diffNAux_all_none l none
        (fun o ho => h o (List.mem_cons_of_mem _ ho)) o h1

theorem diffN_all_none (xs : Series) (h : ∀ o ∈ xs, o = none) :
    ∀ o ∈ diffN xs, o = none := by
  match xs with
  | [] => simp [diffN]
  | x :: l =>
    intro o ho
    rw [diffN] at ho
    rcases List.mem_cons.mp ho with h1 | h1
    · exact h1
    · exact diffNAux_all_none l x
        (fun o ho => h o (List.mem_cons_of_mem _ ho)) o h1

theorem gainSeriesN_all_zero (xs : Series) (h : ∀ o ∈ xs, o = none) :
    ∀ q ∈ gainSeriesN xs, q = 0 := by
  intro q hq
  obtain ⟨d, hd, rfl⟩ := List.mem_map.mp hq
  rw [diffN_all_none xs h d hd]

theorem lossSeriesN_all_zero (xs : Series) (h : ∀ o ∈ xs, o = none) :
    ∀ q ∈ lossSeriesN xs, q = 0 := by
  intro q hq
  obtain ⟨d, hd, rfl⟩ := List.mem_map.mp hq
  rw [diffN_all_none xs h d hd]

theorem windowSlice_sum_zero (w i : ℕ) (xs : List ℚ) (h : ∀ q ∈ xs, q = 0) :
    (windowSlice w xs i).sum = 0 :=
  List.sum_eq_zero fun q hq =>
    h q (List.mem_of_mem_take (List.mem_of_mem_drop hq))

theorem diffNAux_length (prev : Option ℚ) :
    ∀ l : Series, (diffNAux prev l).length = l.length
  | [] => rfl
  | x :: l => by simp [diffNAux, diffNAux_length x l]

theorem diffN_length : ∀ xs : Series, (diffN xs).length = xs.length
  | [] => rfl
  | x :: l => by simp [diffN, diffNAux_length]

theorem gainSeriesN_length (xs : Series) :
    (gainSeriesN xs).length = xs.length := by
  simp [gainSeriesN, diffN_length]

theorem lossSeriesN_length (xs : Series) :
    (lossSeriesN xs).length = xs.length := by
  simp [lossSeriesN, diffN_length]

theorem rollingMeanN_all_none (w : ℕ) (hw : 1 ≤ w) (xs : Series)
    (h : ∀ o ∈ xs, o = none) : ∀ o ∈ rollingMeanN w xs, o = none := by
  intro o ho
  obtain ⟨i, hi, rfl⟩ := List.mem_map.mp ho
  have hiL : i < xs.length := List.mem_range.mp hi
  by_cases h14 : i + 1 < w
  · rw [if_pos h14]
  · rw [if_neg h14]
    have hlen : 0 < ((xs.take (i + 1)).drop (i + 1 - w)).length := by
      rw [List.length_drop, List.length_take]
      omega
    obtain ⟨y, hy⟩ := List.exists_mem_of_length_pos hlen
    have hyn : y = none :=
      h y (List.mem_of_mem_take (List.mem_of_mem_drop hy))
    subst hyn
    have hall : ¬ ((xs.take (i + 1)).drop (i + 1 - w)).all Option.isSome = true := by
      intro hb
      have := List.all_eq_true.mp hb none hy
      simp at this
    rw [if_neg hall]

theorem rsiN_all_none (xs : Series) (h : ∀ o ∈ xs, o = none) :
    ∀ o ∈ rsiN xs, o = none := by
  intro o ho
  obtain ⟨i, hio⟩ := List.mem_iff_getElem?.mp ho
  rw [rsiN, List.getElem?_zipWith] at hio
  by_cases hiL : i < xs.length
  · rw [rollingMean_getElem 14 (gainSeriesN xs) i
        (by rw [gainSeriesN_length]; exact hiL),
      rollingMean_getElem 14 (lossSeriesN xs) i
        (by rw [lossSeriesN_length]; exact hiL)] at hio
    by_cases h14 : i + 1 < 14
    · rw [if_pos h14, if_pos h14] at hio
      exact (Option.some.inj hio).symm
    · rw [if_neg h14, if_neg h14] at hio
      have hg : (windowSlice 14 (gainSeriesN xs) i).sum = 0 :=
        windowSlice_sum_zero 14 i _ (gainSeriesN_all_zero xs h)
      have hl : (windowSlice 14 (lossSeriesN xs) i).sum = 0 :=
        windowSlice_sum_zero 14 i _ (lossSeriesN_all_zero xs h)
      rw [hg, hl] at hio
      rw [zero_div] at hio
      have : o = rsiAt 0 0 := (Option.some.inj hio).symm
      rw [this, rsiAt, if_pos rfl, if_pos rfl]
  · rw [List.getElem?_eq_none (by rw [rollingMean_length, gainSeriesN_length]; omega),
      List.getElem?_eq_none (by rw [rollingMean_length, lossSeriesN_length]; omega)]
      at hio
    cases hio

/-- C7 counterexample: an all-null but nonempty price series does not
make the frame empty, so the caller takes the chart branch — the claim
that it skips chart rendering and surfaces the no-data notice fails. -/
theorem indicator_empty_counterexample :
    renderDecision [none, none] = RenderBranch.chart ∧
    RenderBranch.chart ≠ RenderBranch.noData :=
  ⟨rfl, by simp⟩

/-- C7 (amended): for an empty input the indicator engine yields empty
output series and the caller skips the chart, surfacing the no-data
notice; for an all-null (nonempty) input the engine still raises no
exception and every output value is undefined, but the caller takes
the chart-rendering branch — the notice appears only when the frame is
empty. -/
theorem indicator_empty_amended :
    (rollingMeanN 20 [] = [] ∧ rollingMeanN 50 [] = [] ∧ rsiN [] = [] ∧
      renderDecision [] = RenderBranch.noData) ∧
    (∀ xs : Series, (∀ o ∈ xs, o = none) →
      (∀ o ∈ rollingMeanN 20 xs, o = none) ∧
      (∀ o ∈ rollingMeanN 50 xs, o = none) ∧
      (∀ o ∈ rsiN xs, o = none)) ∧
    (∀ xs : Series, xs ≠ [] → renderDecision xs = RenderBranch.chart) := by
  refine ⟨⟨rfl, rfl, rfl, rfl⟩, ?_, ?_⟩
  · intro xs h
    exact ⟨rollingMeanN_all_none 20 (by norm_num) xs h,
      rollingMeanN_all_none 50 (by norm_num) xs h,
      rsiN_all_none xs h⟩
  · intro xs hne
    rw [renderDecision, if_neg (by simpa [List.isEmpty_iff] using hne)]

/-- C7 witness: a nonempty series takes the chart branch, and on the
all-null two-element series every RSI output value is undefined. -/
theorem indicator_empty_witness :
    renderDecision [some 1] = RenderBranch.chart ∧
    ((rsiN [none, none])[0]?.getD none = none ∧
      (rsiN [none, none])[1]?.getD none = none) := by
  have hall : ∀ o ∈ ([none, none] : Series), o = none := by decide
  have hrsi := (indicator_empty_amended.2.1 [none, none] hall).2.2
  refine ⟨indicator_empty_amended.2.2 [some 1] (by simp), ?_, ?_⟩
  · cases h0 : (rsiN [none, none])[0]? with
    | none => rfl
    | some o => simp [hrsi o (List.mem_iff_getElem?.mpr ⟨0, h0⟩)]
  · cases h1 : (rsiN [none, none])[1]? with
    | none => rfl
    | some o => simp [hrsi o (List.mem_iff_getElem?.mpr ⟨1, h1⟩)]

theorem perfData_cons (fetch : String → FetchOutcome) (p : String × String)
    (ps : List (String × String)) :
    perfData (p :: ps) fetch = (perfRow fetch p).toList ++ perfData ps fetch := by
  rw [perfData, List.filterMap_cons]
  cases perfRow fetch p
  · rfl
  · rfl

/-- C8: the indicator engine is a pure function of the close series —
no other state enters the model — so equal inputs yield identical
SMA-20, SMA-50 and RSI-14 output series. -/
theorem indicator_deterministic (xs ys : List ℚ) (h : xs = ys) :
    indicatorEngine xs = indicatorEngine ys := by
  rw [h]

/-- C8 witness: two evaluations on the same concrete input coincide. -/
theorem indicator_deterministic_witness :
    indicatorEngine [1, 2, 3] = indicatorEngine [1, 2, 3] :=
  indicator_deterministic [1, 2, 3] [1, 2, 3] rfl

/-- C9: the performance list's tickers are exactly the watchlist
tickers whose fetched series has at least two closes, kept in the
watchlist's order — an order-preserving sublist of the watchlist. -/
theorem perf_entries_order (wl : List (String × String))
    (fetch : String → FetchOutcome) :
    (perfData wl fetch).map Prod.fst =
      (wl.map Prod.snd).filter (qualifies fetch) ∧
    ((perfData wl fetch).map Prod.fst).Sublist (wl.map Prod.snd) := by
  have key : (perfData wl fetch).map Prod.fst =
      (wl.map Prod.snd).filter (qualifies fetch) := by
    induction wl with
    | nil => rfl
    | cons p ps ih =>
      rcases hf : fetch p.2 with e | bars
      · have hrow : perfRow fetch p = none := by rw [perfRow, hf]
        have hq : qualifies fetch p.2 = false := by rw [qualifies, hf]
        rw [perfData_cons, hrow, List.map_cons, List.filter_cons, hq]
        simp only [Option.toList, List.nil_append]
        rw [if_neg (by simp)]
        exact ih
      · by_cases hlen : 2 ≤ bars.length
        · have hrow : perfRow fetch p =
              some (p.2, perfValue (bars.map Prod.snd)) := by
            rw [perfRow, hf]
            show (perfEntry (bars.map Prod.snd)).map (fun v => (p.2, v)) = _
            rw [perfEntry, List.length_map, if_pos hlen, Option.map_some']
          have hq : qualifies fetch p.2 = true := by
            rw [qualifies, hf]
            exact decide_eq_true hlen
          rw [perfData_cons, hrow, List.map_cons, List.filter_cons, hq,
            if_pos rfl]
          simp only [Option.toList, List.singleton_append, List.map_cons]
          rw [ih]
        · have hrow : perfRow fetch p = none := by
            rw [perfRow, hf]
            show (perfEntry (bars.map Prod.snd)).map (fun v => (p.2, v)) = _
            rw [perfEntry, List.length_map, if_neg hlen, Option.map_none']
          have hq : qualifies fetch p.2 = false := by
            rw [qualifies, hf]
            exact decide_eq_false hlen
          rw [perfData_cons, hrow, List.map_cons, List.filter_cons, hq]
          simp only [Option.toList, List.nil_append]
          rw [if_neg (by simp)]
          exact ih
  refine ⟨key, ?_⟩
  rw [key]
  exact List.filter_sublist _

/-- C10: when a fetch succeeds with a nonempty series whose previous
close — the division's divisor — is zero, the populated branch is
still taken: the change cell stores the non-finite division result
(NaN or a signed infinity), the snapshot is not the all-`N/A` row, and
no error propagates. -/
theorem zero_divisor_change (n t : String) (bars : List (String × ℚ))
    (hne : bars ≠ []) (hz : prevCloseOf (bars.map Prod.snd) = 0) :
    (snapshotFor n t (Except.ok bars)).change =
      Cell.val (dayChangeVal (bars.map Prod.snd)) ∧
    (dayChangeVal (bars.map Prod.snd)).isFinite = false ∧
    (snapshotFor n t (Except.ok bars)).price ≠ Cell.na ∧
    snapshotFor n t (Except.ok bars) ≠ naSnapshot n t := by
  match bars with
  | [] => exact absurd rfl hne
  | b :: bs =>
    refine ⟨rfl, ?_, ?_, ?_⟩
    · rw [dayChangeVal, hz, pyDiv, if_pos rfl]
      by_cases h0 : lastD ((b :: bs).map Prod.snd) - 0 = 0
      · rw [if_pos h0]
        rfl
      · rw [if_neg h0]
        by_cases hpos : 0 < lastD ((b :: bs).map Prod.snd) - 0
        · rw [if_pos hpos]
          rfl
        · rw [if_neg hpos]
          rfl
    · intro hc
      exact Cell.noConfusion hc
    · intro hcontra
      exact Cell.noConfusion (congrArg Snapshot.price hcontra)

/-- C10 witness: three bars with previous close 0 — the change value
stored for the row is non-finite. -/
theorem zero_divisor_change_witness :
    (dayChangeVal ([("d1", 5), ("d2", 0), ("d3", 3)].map
      Prod.snd)).isFinite = false :=
  (zero_divisor_change "X" "T" [("d1", 5), ("d2", 0), ("d3", 3)] (by simp)
    (by norm_num [prevCloseOf, lastD, List.getD])).2.1
